import Mathlib

/-!
Shallow embedding of `programs/buck_package.py`: the resource-cache
materializer of a packaged build tool.  Filesystem paths are modelled as
lists of components, the filesystem as a function from paths to optional
entries, and the package as a finite tree of named resources.  Effects
that the claims talk about (package reads, lock-acquisition attempts,
lock-handle closes) are recorded in explicit traces inside a `World`
state record.
-/

/-- A filesystem path, as its list of components (`os.path.join` joins
components; `os.path.dirname` drops the last one). -/
abbrev FsPath := List String

/-- An entry on disk: a regular file with its byte content and permission
mode bits, or a directory. -/
inductive FSEntry where
  | file (content : List Nat) (mode : Nat)
  | dir
deriving DecidableEq, Repr

/-- The filesystem, as a partial map from paths to entries. -/
abbrev FS := FsPath → Option FSEntry

/-- Point update of the filesystem. -/
def FS.set (fs : FS) (p : FsPath) (e : FSEntry) : FS :=
  fun q => if q = p then some e else fs q

/-- Decidable test that one path extends another: `pathStarts big small`
holds when `small` is an initial segment of `big` (so `big` lies at or
below `small` in the directory tree). -/
def pathStarts : FsPath → FsPath → Bool
  | _, [] => true
  | [], _ :: _ => false
  | a :: big, b :: small => a == b && pathStarts big small

/-- The session-visible effects of the program on its environment: the
filesystem plus traces of the package reads (`pkg_resources.resource_string`
calls), the shared-lock acquisition attempts, and the lock-handle closes. -/
structure World where
  fs : FS
  reads : List FsPath
  lockAttempts : List FsPath
  closes : List FsPath

/-- Mutable per-instance state of `BuckPackage`: `self._resource_subdir`
and `self._lock_file` (a lock handle is identified by the path of its
lock marker file). -/
structure Session where
  resource_subdir : Option FsPath
  lock_file : Option FsPath
deriving DecidableEq, Repr

/-- Modelled from the spec: the `Resource` descriptor from
`programs.buck_tool` (not under src/): a name used as lookup key in the
package, the leaf filename to install as, and the executable flag. -/
structure Resource where
  name : String
  basename : String
  executable : Bool
deriving DecidableEq, Repr

/-- Modelled from the spec: the external primitives from
`programs.file_locks` and `tempfile` (not under src/): the outcome of this
process's single non-blocking shared-lock attempt per marker path, and the
process-unique random suffix `tempfile.mkdtemp` appends to its prefix. -/
structure LockEnv where
  acquireShared : FsPath → Bool
  tmpSuffix : String

/-- The package resource tree that `pkg_resources` exposes read-only. -/
inductive PkgTree where
  | file (content : List Nat)
  | dir (children : List (String × PkgTree))

def lookup_child : List (String × PkgTree) → String → Option PkgTree
  | [], _ => none
  | (n, t) :: rest, a => if n = a then some t else lookup_child rest a

/-- Resolve a resource name (a path of components) in the package tree. -/
def PkgTree.find (t : PkgTree) : FsPath → Option PkgTree
  | [] => some t
  | a :: as =>
    match t with
    | PkgTree.file _ => none
    | PkgTree.dir cs =>
      match lookup_child cs a with
      | none => none
      | some c => PkgTree.find c as

/-- Embeds `pkg_resources.resource_exists`. -/
def resource_exists (pkg : PkgTree) (name : FsPath) : Bool :=
  (pkg.find name).isSome

/-- Embeds `pkg_resources.resource_isdir`. -/
def resource_isdir (pkg : PkgTree) (name : FsPath) : Bool :=
  match pkg.find name with
  | some (PkgTree.dir _) => true
  | _ => false

/-- Embeds `pkg_resources.resource_listdir`. -/
def resource_listdir (pkg : PkgTree) (name : FsPath) : List String :=
  match pkg.find name with
  | some (PkgTree.dir cs) => cs.map Prod.fst
  | _ => []

/-- Embeds `pkg_resources.resource_string` (the `readBytes` API). -/
def resource_string (pkg : PkgTree) (name : FsPath) : List Nat :=
  match pkg.find name with
  | some (PkgTree.file c) => c
  | _ => []

/-- Modelled from the spec: `file_locks.BUCK_LOCK_FILE_NAME` (the module
`programs.file_locks` is not under src/); the fixed lock marker filename. -/
def BUCK_LOCK_FILE_NAME : String := ".buck_lock"

/-- The `BUCK_FAKE_VERSION` environment key (`BUCK_FAKE_VERSION_ENV`). -/
def BUCK_FAKE_VERSION_ENV : String := "BUCK_FAKE_VERSION"

/-- The owner-execute permission bit `stat.S_IXUSR` (octal 100). -/
def S_IXUSR : Nat := 64

/-- Modelled from the spec: the permission mode of a fresh temporary file
(`MovableTemporaryFile` from `programs.buck_tool`, not under src/, wraps a
`tempfile` temporary, created with mode octal 600: no execute bits). -/
def temp_file_mode : Nat := 384

def mkdir_if_absent (fs : FS) (p : FsPath) : FS :=
  if (fs p).isSome then fs else FS.set fs p FSEntry.dir

/-- Walks the components of a path left to right, creating each missing
intermediate directory under the already-handled components `done`. -/
def create_dirs_from (fs : FS) (done : FsPath) : FsPath → FS
  | [] => fs
  | a :: rest => create_dirs_from (mkdir_if_absent fs (done ++ [a])) (done ++ [a]) rest

/-- Embeds `BuckPackage.__create_dir`: `os.makedirs` with the
already-exists error swallowed, so creation is idempotent and concurrent
creation is treated as success. -/
def create_dir (fs : FS) (p : FsPath) : FS :=
  create_dirs_from fs [] p

/-- Opening a file with mode "a+": creates it empty (mode octal 644) when
it does not exist yet, otherwise leaves it untouched. -/
def open_append (fs : FS) (p : FsPath) : FS :=
  if (fs p).isSome then fs else FS.set fs p (FSEntry.file [] 420)

/-- The permission mode of an extracted leaf file: the temporary file's
fresh mode, with `S_IXUSR` or-ed in by `os.fchmod` when the descriptor is
executable and the platform has `fchmod` (`sup`). -/
def extract_mode (rexec sup : Bool) : Nat :=
  if rexec && sup then Nat.lor temp_file_mode S_IXUSR else temp_file_mode

/-- The leaf branch of `_unpack_resource` (with `MovableTemporaryFile`
modelled from the spec): bytes are written to a temporary alongside the
target, the executable bit is set on the temporary when requested and
supported, and `shutil.copy` then places content and mode at the target;
the temporary is discarded, so only the net effect at the target appears.
The `resource_string` read is recorded in the `reads` trace. -/
def extract_file (sup : Bool) (w : World) (rpath rname : FsPath)
    (content : List Nat) (rexec : Bool) : World :=
  { w with
    fs := FS.set w.fs rpath (FSEntry.file content (extract_mode rexec sup)),
    reads := w.reads ++ [rname] }

/-- Embeds `BuckPackage._unpack_resource`.  `fuel` only bounds the
recursion depth (the Python recursion descends one package-tree level per
call); claims are stated with enough fuel for the trees involved.  A
missing resource silently returns; a directory resource is created
(idempotently) and every child with a non-empty name is recursively
unpacked with the executable flag forced to `False`; a leaf resource is
extracted unconditionally. -/
def unpack_resource (pkg : PkgTree) (sup : Bool) :
    Nat → World → FsPath → FsPath → Bool → Except String World
  | 0, w, _, _, _ => Except.ok w
  | fuel + 1, w, rpath, rname, rexec =>
    if resource_exists pkg rname = false then Except.ok w
    else if resource_isdir pkg rname then
      let w1 : World := { w with fs := create_dir w.fs rpath }
      (resource_listdir pkg rname).foldl
        (fun acc f =>
          match acc with
          | Except.error e => Except.error e
          | Except.ok w2 =>
            if f = "" then Except.ok w2
            else unpack_resource pkg sup fuel w2 (rpath ++ [f]) (rname ++ [f]) false)
        (Except.ok w1)
    else
      Except.ok (extract_file sup w rpath rname (resource_string pkg rname) rexec)

/-- Joins path components the way the error messages print them. -/
def path_to_string (p : FsPath) : String :=
  String.intercalate "/" p

/-- Embeds `BuckPackage._unpack_dir`: fatal errors when the resource is
missing or is not a directory, idempotent creation of the destination,
then each child whose destination path already exists is skipped and the
others are unpacked via `_unpack_resource` with executable `False`. -/
def unpack_dir (pkg : PkgTree) (sup : Bool) (fuel : Nat) (w : World)
    (resource_dir dst_dir : FsPath) : Except String World :=
  if resource_exists pkg resource_dir = false then
    Except.error ("Cannot unpack directory: " ++ path_to_string resource_dir ++
      " doesn\x27t exist in the package")
  else if resource_isdir pkg resource_dir = false then
    Except.error ("Cannot unpack directory: " ++ path_to_string resource_dir ++
      " is not a directory")
  else
    let w1 : World := { w with fs := create_dir w.fs dst_dir }
    if (w1.fs dst_dir).isSome = false then
      Except.error ("Cannot unpack directory: cannot create directory " ++
        path_to_string dst_dir)
    else
      (resource_listdir pkg resource_dir).foldl
        (fun acc f =>
          match acc with
          | Except.error e => Except.error e
          | Except.ok w2 =>
            if (w2.fs (dst_dir ++ [f])).isSome then Except.ok w2
            else unpack_resource pkg sup fuel w2 (dst_dir ++ [f])
              (resource_dir ++ [f]) false)
        (Except.ok w1)

/-- Embeds the local `try_subdir` of `_get_resource_subdir`: create the
directory, open (creating if needed) the lock marker file inside it, and
attempt the non-blocking shared lock, recording the attempt; returns the
lock handle (identified by the marker path) on success. -/
def try_subdir (env : LockEnv) (w : World) (lock_file_dir : FsPath) :
    World × Option FsPath :=
  let fs1 := create_dir w.fs lock_file_dir
  let lock_file_path := lock_file_dir ++ [BUCK_LOCK_FILE_NAME]
  let fs2 := open_append fs1 lock_file_path
  let w2 : World :=
    { w with
      fs := fs2,
      lockAttempts := w.lockAttempts ++ [lock_file_path] }
  if env.acquireShared lock_file_path then (w2, some lock_file_path)
  else (w2, none)

/-- Modelled from the spec: `tempfile.mkdtemp(dir=..., prefix=...)`
creates a fresh private directory whose name is the given name prefix
followed by the process-unique random suffix supplied by `env`. -/
def mkdtemp (env : LockEnv) (fs : FS) (dir : FsPath) (pref : String) :
    FS × FsPath :=
  let p := dir ++ [pref ++ env.tmpSuffix]
  (FS.set fs p FSEntry.dir, p)

/-- Embeds `BuckPackage._get_resource_subdir`: memoized on
`self._resource_subdir`; otherwise try the canonical signature directory,
fall back to a fresh `mkdtemp` directory when the canonical lock is
unavailable, and raise when even the fresh directory cannot be locked. -/
def get_resource_subdir (env : LockEnv) (sig : String) (resource_dir : FsPath)
    (s : Session) (w : World) : Except String (Session × World × FsPath) :=
  match s.resource_subdir with
  | some d => Except.ok (s, w, d)
  | none =>
    let subdir := resource_dir ++ [sig]
    match try_subdir env w subdir with
    | (w1, some lock) =>
      Except.ok ({ s with resource_subdir := some subdir, lock_file := some lock },
        w1, subdir)
    | (w1, none) =>
      match mkdtemp env w1.fs resource_dir sig with
      | (fs2, subdir2) =>
        match try_subdir env { w1 with fs := fs2 } subdir2 with
        | (w3, some lock) =>
          Except.ok ({ s with resource_subdir := some subdir2, lock_file := some lock },
            w3, subdir2)
        | (_, none) =>
          Except.error ("Could not acquire lock in fresh tmp dir: " ++
            path_to_string subdir2)

/-- Embeds `BuckPackage._get_resource` (the `ensure` path): resolve the
cache subdirectory, create the target path's parent when missing, and
unpack only when the target path does not already exist. -/
def get_resource (env : LockEnv) (pkg : PkgTree) (sup : Bool) (fuel : Nat)
    (sig : String) (resource_dir : FsPath) (s : Session) (w : World)
    (r : Resource) : Except String (Session × World × FsPath) :=
  match get_resource_subdir env sig resource_dir s w with
  | Except.error e => Except.error e
  | Except.ok (s1, w1, subdir) =>
    let resource_path := subdir ++ [r.basename]
    let w2 : World :=
      if (w1.fs resource_path.dropLast).isSome then w1
      else { w1 with fs := create_dir w1.fs resource_path.dropLast }
    if (w2.fs resource_path).isSome then Except.ok (s1, w2, resource_path)
    else
      match unpack_resource pkg sup fuel w2 resource_path [r.name] r.executable with
      | Except.ok w3 => Except.ok (s1, w3, resource_path)
      | Except.error e => Except.error e

/-- Embeds `BuckPackage.__exit__`: close the lock handle if one is held
(recording the close) and clear the field so a later call is a no-op. -/
def session_exit (s : Session) (w : World) : Session × World :=
  match s.lock_file with
  | some lf => ({ s with lock_file := none }, { w with closes := w.closes ++ [lf] })
  | none => (s, w)

/-- Embeds `os.environ.get(key, default)` over an association-list
environment. -/
def os_environ_get (environ : List (String × String)) (key dflt : String) : String :=
  match environ.find? (fun kv => kv.1 == key) with
  | some kv => kv.2
  | none => dflt

/-- Embeds `BuckPackage.get_fake_version`. -/
def get_fake_version (environ : List (String × String)) (dflt : String) : String :=
  os_environ_get environ BUCK_FAKE_VERSION_ENV dflt

/-- Embeds `BuckPackage.get_buck_version`; the boolean records whether the
packaged version metadata (`_get_package_info()["version"]`) was
consulted. -/
def get_buck_version (environ : List (String × String))
    (package_info_version : String) : String × Bool :=
  let fake_version := get_fake_version environ ""
  if fake_version ≠ "" then (fake_version, false)
  else (package_info_version, true)

/-- An empty starting world for the concrete scenarios. -/
def w0 : World := { fs := fun _ => none, reads := [], lockAttempts := [], closes := [] }

/-- Concrete package for the C1 scenario: only resource `present` exists. -/
def pkg1 : PkgTree := PkgTree.dir [("present", PkgTree.file [1])]

/-- Concrete package for the C2 counterexample: directory resource `m`
containing the single file `x` with bytes `[1]`. -/
def pkg2 : PkgTree := PkgTree.dir [("m", PkgTree.dir [("x", PkgTree.file [1])])]

/-- Starting world for the C2 counterexample: the target directory `dst`
already exists and already holds a child file `x` with bytes `[9]` and
mode octal 700. -/
def w2fix : World :=
  { fs := fun q =>
      if q = ["dst"] then some FSEntry.dir
      else if q = ["dst", "x"] then some (FSEntry.file [9] 448)
      else none,
    reads := [], lockAttempts := [], closes := [] }

/-- Lock environment for the C3 and C4 witnesses: every acquisition
succeeds. -/
def env3 : LockEnv := { acquireShared := fun _ => true, tmpSuffix := "ZQ" }

/-- The session produced by the first locate call of the C3 witness. -/
def c3sess : Session :=
  match get_resource_subdir env3 "v1" ["root"] ⟨none, none⟩ w0 with
  | Except.ok (s, _, _) => s
  | Except.error _ => ⟨none, none⟩

/-- The world produced by the first locate call of the C3 witness. -/
def c3world : World :=
  match get_resource_subdir env3 "v1" ["root"] ⟨none, none⟩ w0 with
  | Except.ok (_, w, _) => w
  | Except.error _ => w0

/-- Lock environment for the C5 witness: the canonical directory's lock is
pre-held, so acquisition fails exactly on its marker path. -/
def env5 : LockEnv :=
  { acquireShared := fun p => !(p == ["root", "v1", BUCK_LOCK_FILE_NAME]),
    tmpSuffix := "AB12" }

/-- Package for the C10 witness: directory `m` listing an empty-named
child and a file `ok`. -/
def pkg10 : PkgTree :=
  PkgTree.dir [("m", PkgTree.dir [("", PkgTree.file [3]), ("ok", PkgTree.file [4])])]

/-- Result world of the C10 witness unpack. -/
def c10res : World :=
  match unpack_resource pkg10 true 2 w0 ["t"] ["m"] false with
  | Except.ok w => w
  | Except.error _ => w0

/-- Package for the C2-amended witness: directory `mods` with children
`a` and `b`. -/
def pkg2w : PkgTree :=
  PkgTree.dir [("mods", PkgTree.dir [("a", PkgTree.file [5]), ("b", PkgTree.file [6])])]

/-- Starting world for the C2-amended witness: destination `out` exists
and already holds child `a`. -/
def wW : World :=
  { fs := fun q =>
      if q = ["out"] then some FSEntry.dir
      else if q = ["out", "a"] then some (FSEntry.file [7] 420)
      else none,
    reads := [], lockAttempts := [], closes := [] }

/-- Result world of the C2-amended witness unpack. -/
def c2w_result : World :=
  match unpack_dir pkg2w true 3 wW ["mods"] ["out"] with
  | Except.ok w => w
  | Except.error _ => wW

/-- Memoized session for the C4 witness. -/
def s4 : Session := ⟨some ["root", "v1"], some ["root", "v1", BUCK_LOCK_FILE_NAME]⟩

/-- World for the C4 witness: the requested resource is already present in
the cache subdirectory. -/
def w4 : World :=
  { fs := fun q =>
      if q = ["root", "v1"] then some FSEntry.dir
      else if q = ["root", "v1", "res.jar"] then some (FSEntry.file [7] 420)
      else none,
    reads := [], lockAttempts := [], closes := [] }

/-- Descriptor for the C4 witness. -/
def r4 : Resource := ⟨"res", "res.jar", false⟩


/-- Byte content of a filesystem entry (a directory has none). -/
def file_bytes : FSEntry → List Nat
  | FSEntry.file c _ => c
  | FSEntry.dir => []

theorem pathStarts_iff (small : FsPath) : ∀ big : FsPath,
    pathStarts big small = true ↔ ∃ r, big = small ++ r := by
  induction small with
  | nil =>
    intro big
    simp [pathStarts]
  | cons b bs ih =>
    intro big
    cases big with
    | nil =>
      simp [pathStarts]
    | cons a as =>
      simp [pathStarts, ih as]

theorem pathStarts_refl (p : FsPath) : pathStarts p p = true := by
  rw [pathStarts_iff]
  exact ⟨[], by simp⟩

theorem pathStarts_append (p r : FsPath) : pathStarts (p ++ r) p = true := by
  rw [pathStarts_iff]
  exact ⟨r, rfl⟩

theorem pathStarts_length (small : FsPath) : ∀ big : FsPath,
    pathStarts big small = true → small.length ≤ big.length := by
  intro big h
  rcases (pathStarts_iff small big).mp h with ⟨r, rfl⟩
  simp

theorem pathStarts_false_of_longer (big small : FsPath)
    (h : big.length < small.length) : pathStarts big small = false := by
  cases hb : pathStarts big small with
  | false => rfl
  | true => exact absurd (pathStarts_length small big hb) (by omega)

theorem pathStarts_trans (a b c : FsPath) (h1 : pathStarts a b = true)
    (h2 : pathStarts b c = true) : pathStarts a c = true := by
  rcases (pathStarts_iff b a).mp h1 with ⟨r, rfl⟩
  rcases (pathStarts_iff c b).mp h2 with ⟨s, rfl⟩
  rw [pathStarts_iff]
  exact ⟨s ++ r, by simp⟩

theorem starts_comparable (s1 : FsPath) : ∀ (s2 big : FsPath),
    pathStarts big s1 = true → pathStarts big s2 = true →
    s1.length ≤ s2.length → pathStarts s2 s1 = true := by
  induction s1 with
  | nil =>
    intro s2 big _ _ _
    cases s2 <;> simp [pathStarts]
  | cons b bs ih =>
    intro s2 big h1 h2 hlen
    cases s2 with
    | nil => simp at hlen
    | cons c cs =>
      cases big with
      | nil => simp [pathStarts] at h1
      | cons a as =>
        simp only [pathStarts, Bool.and_eq_true, beq_iff_eq] at h1 h2 ⊢
        obtain ⟨rfl, h1t⟩ := h1
        obtain ⟨rfl, h2t⟩ := h2
        exact ⟨rfl, ih cs as h1t h2t (by simpa using hlen)⟩

theorem pathStarts_extend_false (q p : FsPath) (f : String)
    (h : pathStarts q p = false) : pathStarts q (p ++ [f]) = false := by
  cases hq : pathStarts q (p ++ [f]) with
  | false => rfl
  | true =>
    have ht := pathStarts_trans q (p ++ [f]) p hq (pathStarts_append p [f])
    exact absurd ht (by simp [h])

theorem pathStarts_snoc_false (q p : FsPath) (f : String)
    (h1 : pathStarts q p = false) (h2 : pathStarts p q = false) :
    pathStarts (p ++ [f]) q = false := by
  cases hq : pathStarts (p ++ [f]) q with
  | false => rfl
  | true =>
    exfalso
    rcases Nat.le_total q.length p.length with hle | hle
    · have ht := starts_comparable q p (p ++ [f]) hq (pathStarts_append p [f]) hle
      simp [ht] at h2
    · have ht := starts_comparable p q (p ++ [f]) (pathStarts_append p [f]) hq hle
      simp [ht] at h1

theorem pathStarts_snoc_ne (p : FsPath) (f g : String) (h : f ≠ g) :
    pathStarts (p ++ [f]) (p ++ [g]) = false := by
  cases hq : pathStarts (p ++ [f]) (p ++ [g]) with
  | false => rfl
  | true =>
    exfalso
    rcases (pathStarts_iff _ _).mp hq with ⟨r, hr⟩
    have hr0 : r = [] := by
      have hl := congrArg List.length hr
      simp at hl
      exact hl
    subst hr0
    simp at hr
    exact h hr

theorem starts_snoc_incomparable (p : FsPath) (c f : String) (q : FsPath)
    (hne : f ≠ c) (hq : pathStarts q (p ++ [c]) = true) :
    pathStarts q (p ++ [f]) = false ∧ pathStarts (p ++ [f]) q = false := by
  constructor
  · cases h2 : pathStarts q (p ++ [f]) with
    | false => rfl
    | true =>
      exfalso
      have hcmp := starts_comparable (p ++ [c]) (p ++ [f]) q hq h2 (by simp)
      simp [pathStarts_snoc_ne p f c hne] at hcmp
  · cases h2 : pathStarts (p ++ [f]) q with
    | false => rfl
    | true =>
      exfalso
      have ht := pathStarts_trans (p ++ [f]) q (p ++ [c]) h2 hq
      simp [pathStarts_snoc_ne p f c hne] at ht

theorem FS.set_same (fs : FS) (p : FsPath) (e : FSEntry) : FS.set fs p e p = some e := by
  simp [FS.set]

theorem FS.set_other (fs : FS) (p q : FsPath) (e : FSEntry) (h : q ≠ p) :
    FS.set fs p e q = fs q := by
  simp [FS.set, h]

theorem mkdir_if_absent_preserves (fs : FS) (p q : FsPath) (e : FSEntry)
    (h : fs q = some e) : mkdir_if_absent fs p q = some e := by
  unfold mkdir_if_absent
  by_cases hp : (fs p).isSome
  · simp [hp, h]
  · simp [hp]
    by_cases hq : q = p
    · subst hq
      rw [h] at hp
      simp at hp
    · rw [FS.set_other fs p q FSEntry.dir hq]
      exact h

theorem mkdir_if_absent_untouched (fs : FS) (p q : FsPath) (h : q ≠ p) :
    mkdir_if_absent fs p q = fs q := by
  unfold mkdir_if_absent
  split
  · rfl
  · exact FS.set_other fs p q FSEntry.dir h

theorem create_dirs_from_untouched (q : FsPath) :
    ∀ (rest done : FsPath) (fs : FS),
    pathStarts (done ++ rest) q = false → create_dirs_from fs done rest q = fs q := by
  intro rest
  induction rest with
  | nil =>
    intro done fs _
    rfl
  | cons a rest ih =>
    intro done fs h
    rw [create_dirs_from]
    have hne : q ≠ done ++ [a] := by
      intro hq
      subst hq
      have hs : pathStarts (done ++ a :: rest) (done ++ [a]) = true := by
        have he : done ++ a :: rest = (done ++ [a]) ++ rest := by simp
        rw [he]
        exact pathStarts_append _ _
      simp [hs] at h
    have h2 : pathStarts ((done ++ [a]) ++ rest) q = false := by
      have he : (done ++ [a]) ++ rest = done ++ a :: rest := by simp
      rw [he]
      exact h
    rw [ih (done ++ [a]) (mkdir_if_absent fs (done ++ [a])) h2]
    exact mkdir_if_absent_untouched fs (done ++ [a]) q hne

theorem create_dir_untouched (fs : FS) (p q : FsPath)
    (h : pathStarts p q = false) : create_dir fs p q = fs q := by
  apply create_dirs_from_untouched q p [] fs
  simpa using h

theorem create_dirs_from_preserves (q : FsPath) (e : FSEntry) :
    ∀ (rest done : FsPath) (fs : FS),
    fs q = some e → create_dirs_from fs done rest q = some e := by
  intro rest
  induction rest with
  | nil =>
    intro done fs h
    exact h
  | cons a rest ih =>
    intro done fs h
    rw [create_dirs_from]
    exact ih (done ++ [a]) _ (mkdir_if_absent_preserves fs (done ++ [a]) q e h)

theorem create_dir_preserves (fs : FS) (p q : FsPath) (e : FSEntry)
    (h : fs q = some e) : create_dir fs p q = some e :=
  create_dirs_from_preserves q e p [] fs h

theorem create_dirs_from_isSome :
    ∀ (rest : FsPath), rest ≠ [] → ∀ (done : FsPath) (fs : FS),
    ((create_dirs_from fs done rest) (done ++ rest)).isSome = true := by
  intro rest
  induction rest with
  | nil =>
    intro h
    exact absurd rfl h
  | cons a rest ih =>
    intro _ done fs
    rw [create_dirs_from]
    cases hr : rest with
    | nil =>
      subst hr
      show ((mkdir_if_absent fs (done ++ [a])) (done ++ [a])).isSome = true
      unfold mkdir_if_absent
      split
      next hs => simpa using hs
      next hs => simp [FS.set_same]
    | cons b rest2 =>
      subst hr
      have he : done ++ a :: b :: rest2 = (done ++ [a]) ++ (b :: rest2) := by simp
      rw [he]
      exact ih (by simp) (done ++ [a]) (mkdir_if_absent fs (done ++ [a]))

theorem create_dir_isSome (fs : FS) (p : FsPath) (h : p ≠ []) :
    ((create_dir fs p) p).isSome = true := by
  have hs := create_dirs_from_isSome p h [] fs
  simpa using hs

theorem foldl_step_error {α : Type} (g : World → α → Except String World)
    (l : List α) (e : String) :
    l.foldl
      (fun acc f =>
        match acc with
        | Except.error e2 => Except.error e2
        | Except.ok w2 => g w2 f)
      (Except.error e) = Except.error e := by
  induction l with
  | nil => rfl
  | cons a l ih =>
    rw [List.foldl_cons]
    exact ih

theorem unpack_master (pkg : PkgTree) (sup : Bool) :
    ∀ (fuel : Nat) (rpath rname : FsPath) (rexec : Bool) (w w' : World) (q : FsPath),
    unpack_resource pkg sup fuel w rpath rname rexec = Except.ok w' →
    pathStarts q rpath = false →
    ((∀ e, w.fs q = some e → w'.fs q = some e) ∧
      (pathStarts rpath q = false → w'.fs q = w.fs q)) := by
  intro fuel
  induction fuel with
  | zero =>
    intro rpath rname rexec w w' q hok _
    simp [unpack_resource] at hok
    subst hok
    exact ⟨fun _ he => he, fun _ => rfl⟩
  | succ fuel ih =>
    intro rpath rname rexec w w' q hok hq
    rw [unpack_resource] at hok
    by_cases hex : resource_exists pkg rname = false
    · simp [hex] at hok
      subst hok
      exact ⟨fun _ he => he, fun _ => rfl⟩
    · by_cases hdir : resource_isdir pkg rname = true
      · simp [hex, hdir] at hok
        have hfold : ∀ (l : List String) (wa wb : World),
            l.foldl
              (fun acc f =>
                match acc with
                | Except.error e => Except.error e
                | Except.ok w2 =>
                  if f = "" then Except.ok w2
                  else unpack_resource pkg sup fuel w2 (rpath ++ [f]) (rname ++ [f]) false)
              (Except.ok wa) = Except.ok wb →
            ((∀ e, wa.fs q = some e → wb.fs q = some e) ∧
              (pathStarts rpath q = false → wb.fs q = wa.fs q)) := by
          intro l
          induction l with
          | nil =>
            intro wa wb h
            simp [List.foldl] at h
            subst h
            exact ⟨fun _ he => he, fun _ => rfl⟩
          | cons f l ihl =>
            intro wa wb h
            rw [List.foldl_cons] at h
            by_cases hf : f = ""
            · simp [hf] at h
              exact ihl wa wb h
            · simp only [hf, if_false] at h
              cases hstep : unpack_resource pkg sup fuel wa (rpath ++ [f]) (rname ++ [f]) false with
              | error e =>
                rw [hstep] at h
                rw [foldl_step_error] at h
                cases h
              | ok wc =>
                rw [hstep] at h
                have hq1 : pathStarts q (rpath ++ [f]) = false :=
                  pathStarts_extend_false q rpath f hq
                have hm := ih (rpath ++ [f]) (rname ++ [f]) false wa wc q hstep hq1
                have hrest := ihl wc wb h
                exact ⟨fun e he => hrest.1 e (hm.1 e he),
                  fun hq2 => by
                    have hq3 : pathStarts (rpath ++ [f]) q = false :=
                      pathStarts_snoc_false q rpath f hq hq2
                    rw [hrest.2 hq2, hm.2 hq3]⟩
        have hw1 := hfold (resource_listdir pkg rname)
          { w with fs := create_dir w.fs rpath } w' hok
        constructor
        · intro e he
          exact hw1.1 e (create_dir_preserves w.fs rpath q e he)
        · intro hq2
          rw [hw1.2 hq2]
          exact create_dir_untouched w.fs rpath q hq2
      · simp [hex, hdir] at hok
        subst hok
        have hne : q ≠ rpath := by
          intro hqe
          subst hqe
          simp [pathStarts_refl] at hq
        have hval : (extract_file sup w rpath rname (resource_string pkg rname) rexec).fs q = w.fs q := by
          simp only [extract_file]
          exact FS.set_other w.fs rpath q _ hne
        exact ⟨fun e he => by rw [hval]; exact he, fun _ => hval⟩

/-- Claim C6: when the `BUCK_FAKE_VERSION` override key is set to a
non-empty string, `get_buck_version` returns exactly that string and the
packaged version metadata is not consulted; when the key is unset or set
to the empty string, the version from the package info is returned. -/
theorem c6_version_override (environ : List (String × String)) (pv : String) :
    (get_fake_version environ "" ≠ "" →
      get_buck_version environ pv = (get_fake_version environ "", false)) ∧
    (get_fake_version environ "" = "" →
      get_buck_version environ pv = (pv, true)) := by
  constructor
  · intro h
    simp [get_buck_version, h]
  · intro h
    simp [get_buck_version, h]

/-- Witness for C6 at two concrete environments. -/
theorem c6_version_override_witness :
    get_buck_version [(BUCK_FAKE_VERSION_ENV, "v9")] "pkg" = ("v9", false) ∧
    get_buck_version [] "pkg" = ("pkg", true) := by
  constructor
  · exact (c6_version_override [(BUCK_FAKE_VERSION_ENV, "v9")] "pkg").1 (by decide)
  · exact (c6_version_override [] "pkg").2 rfl

/-- Claim C9: `__exit__` closes an acquired lock handle exactly once
(recorded in the `closes` trace), clears the handle field, and invoking
the exit handler again is a safe no-op. -/
theorem c9_exit_releases_once (s : Session) (w : World) (lf : FsPath)
    (h : s.lock_file = some lf) :
    (session_exit s w).2.closes = w.closes ++ [lf] ∧
    (session_exit s w).1.lock_file = none ∧
    session_exit (session_exit s w).1 (session_exit s w).2 = session_exit s w := by
  simp [session_exit, h]

/-- Witness for C9 at a concrete session. -/
theorem c9_exit_releases_once_witness :
    (session_exit ⟨some ["root", "v1"], some ["root", "v1", BUCK_LOCK_FILE_NAME]⟩ w0).2.closes =
      w0.closes ++ [["root", "v1", BUCK_LOCK_FILE_NAME]] ∧
    (session_exit ⟨some ["root", "v1"], some ["root", "v1", BUCK_LOCK_FILE_NAME]⟩ w0).1.lock_file =
      none ∧
    session_exit (session_exit ⟨some ["root", "v1"], some ["root", "v1", BUCK_LOCK_FILE_NAME]⟩ w0).1
        (session_exit ⟨some ["root", "v1"], some ["root", "v1", BUCK_LOCK_FILE_NAME]⟩ w0).2 =
      session_exit ⟨some ["root", "v1"], some ["root", "v1", BUCK_LOCK_FILE_NAME]⟩ w0 :=
  c9_exit_releases_once ⟨some ["root", "v1"], some ["root", "v1", BUCK_LOCK_FILE_NAME]⟩ w0
    ["root", "v1", BUCK_LOCK_FILE_NAME] rfl

/-- Claim C1 counterexample: for a name absent from the package,
`_unpack_resource` (the extraction step of the ensure path) does NOT
raise a fatal error — it returns successfully, with the world unchanged
(so no partial target either; the error the claim requires never
occurs). -/
theorem c1_missing_resource_counterexample :
    unpack_resource pkg1 true 5 w0 ["cache", "missing"] ["missing"] false = Except.ok w0 ∧
    w0.fs ["cache", "missing"] = none := by
  constructor
  · rfl
  · rfl

/-- Claim C1 amended: requesting a missing name through
`_unpack_resource` silently returns with the world unchanged (in
particular no partial target is created), while `_unpack_dir` raises the
fatal "doesn't exist in the package" error without creating anything. -/
theorem c1_missing_resource_amended (pkg : PkgTree) (sup : Bool) (fuel : Nat)
    (w : World) (rpath rname dst : FsPath) (rexec : Bool)
    (h : resource_exists pkg rname = false) :
    unpack_resource pkg sup fuel w rpath rname rexec = Except.ok w ∧
    unpack_dir pkg sup fuel w rname dst =
      Except.error ("Cannot unpack directory: " ++ path_to_string rname ++
        " doesn\x27t exist in the package") := by
  constructor
  · cases fuel with
    | zero => rfl
    | succ fuel => simp [unpack_resource, h]
  · simp [unpack_dir, h]

/-- Witness for the amended C1. -/
theorem c1_missing_resource_amended_witness :
    unpack_resource pkg1 true 5 w0 ["cache", "m2"] ["m2"] false = Except.ok w0 ∧
    unpack_dir pkg1 true 5 w0 ["m2"] ["cache", "m2"] =
      Except.error ("Cannot unpack directory: " ++ path_to_string ["m2"] ++
        " doesn\x27t exist in the package") :=
  c1_missing_resource_amended pkg1 true 5 w0 ["cache", "m2"] ["m2"] ["cache", "m2"] false rfl

/-- Claim C7: an extracted leaf resource's permissions include the
owner-execute bit (bit 6) when the descriptor is executable and the
platform supports `fchmod`; when the flag is false, no execute bit is
added — the resulting mode has no execute bits (octal 111 mask) at
all. -/
theorem c7_executable_bit (pkg : PkgTree) (sup : Bool) (fuel : Nat) (w : World)
    (rpath rname : FsPath) (rexec : Bool) (content : List Nat)
    (h : pkg.find rname = some (PkgTree.file content)) :
    (unpack_resource pkg sup (fuel + 1) w rpath rname rexec).map
        (fun w2 => w2.fs rpath) =
      Except.ok (some (FSEntry.file content (extract_mode rexec sup))) ∧
    (rexec = true → sup = true → Nat.testBit (extract_mode rexec sup) 6 = true) ∧
    (rexec = false → extract_mode rexec sup &&& 73 = 0) := by
  refine ⟨?_, ?_, ?_⟩
  · rw [unpack_resource]
    simp [resource_exists, resource_isdir, resource_string, h, extract_file,
      FS.set_same, Except.map]
  · intro h1 h2
    subst h1
    subst h2
    decide
  · intro h1
    subst h1
    simp [extract_mode, temp_file_mode]
    decide

/-- Witness for C7. -/
theorem c7_executable_bit_witness :
    (unpack_resource pkg1 true 1 w0 ["cache", "present"] ["present"] true).map
        (fun w2 => w2.fs ["cache", "present"]) =
      Except.ok (some (FSEntry.file [1] (extract_mode true true))) ∧
    Nat.testBit (extract_mode true true) 6 = true := by
  have h := c7_executable_bit pkg1 true 0 w0 ["cache", "present"] ["present"] true [1] rfl
  exact ⟨h.1, h.2.1 rfl rfl⟩

/-- Claim C8 round-trip: after extracting a leaf resource present in the
package, the bytes at the target path are exactly the bytes the package
read API (`resource_string`, i.e. `readBytes`) returns for that name. -/
theorem c8_roundtrip (pkg : PkgTree) (sup : Bool) (fuel : Nat) (w : World)
    (rpath rname : FsPath) (rexec : Bool) (content : List Nat)
    (h : pkg.find rname = some (PkgTree.file content)) :
    (unpack_resource pkg sup (fuel + 1) w rpath rname rexec).map
        (fun w2 => (w2.fs rpath).map file_bytes) =
      Except.ok (some (resource_string pkg rname)) := by
  rw [unpack_resource]
  simp [resource_exists, resource_isdir, resource_string, h, extract_file,
    FS.set_same, Except.map, file_bytes]

/-- Witness for C8. -/
theorem c8_roundtrip_witness :
    (unpack_resource pkg1 true 1 w0 ["cache", "present"] ["present"] false).map
        (fun w2 => (w2.fs ["cache", "present"]).map file_bytes) =
      Except.ok (some (resource_string pkg1 ["present"])) :=
  c8_roundtrip pkg1 true 0 w0 ["cache", "present"] ["present"] false [1] rfl

/-- Claim C10: in the `_unpack_resource` directory recursion, every child
listed with an empty name is skipped entirely — the whole computation
equals the one over the child list with empty names removed (so all
non-empty-named siblings are still processed, in order), and the
filesystem is unchanged at the empty-named child's path. -/
theorem c10_empty_child_skipped (pkg : PkgTree) (sup : Bool) (fuel : Nat)
    (w : World) (rpath rname : FsPath) (rexec : Bool) (cs : List (String × PkgTree))
    (h : pkg.find rname = some (PkgTree.dir cs)) :
    unpack_resource pkg sup (fuel + 1) w rpath rname rexec =
      ((cs.map Prod.fst).filter (fun f => !(f == ""))).foldl
        (fun acc f =>
          match acc with
          | Except.error e => Except.error e
          | Except.ok w2 =>
            unpack_resource pkg sup fuel w2 (rpath ++ [f]) (rname ++ [f]) false)
        (Except.ok { w with fs := create_dir w.fs rpath }) ∧
    (∀ w', unpack_resource pkg sup (fuel + 1) w rpath rname rexec = Except.ok w' →
      w'.fs (rpath ++ [""]) = w.fs (rpath ++ [""])) := by
  have hunfold : unpack_resource pkg sup (fuel + 1) w rpath rname rexec =
      (cs.map Prod.fst).foldl
        (fun acc f =>
          match acc with
          | Except.error e => Except.error e
          | Except.ok w2 =>
            if f = "" then Except.ok w2
            else unpack_resource pkg sup fuel w2 (rpath ++ [f]) (rname ++ [f]) false)
        (Except.ok { w with fs := create_dir w.fs rpath }) := by
    rw [unpack_resource]
    simp [resource_exists, resource_isdir, resource_listdir, h]
  have hfilter : ∀ (l : List String) (acc : Except String World),
      l.foldl
        (fun acc2 f =>
          match acc2 with
          | Except.error e => Except.error e
          | Except.ok w2 =>
            if f = "" then Except.ok w2
            else unpack_resource pkg sup fuel w2 (rpath ++ [f]) (rname ++ [f]) false)
        acc =
      (l.filter (fun f => !(f == ""))).foldl
        (fun acc2 f =>
          match acc2 with
          | Except.error e => Except.error e
          | Except.ok w2 =>
            unpack_resource pkg sup fuel w2 (rpath ++ [f]) (rname ++ [f]) false)
        acc := by
    intro l
    induction l with
    | nil =>
      intro acc
      rfl
    | cons f l ihl =>
      intro acc
      by_cases hf : f = ""
      · subst hf
        have hfc : List.filter (fun g => !(g == "")) ("" :: l) =
            List.filter (fun g => !(g == "")) l := by
          simp [List.filter_cons]
        rw [hfc]
        cases acc with
        | error e =>
          rw [foldl_step_error, foldl_step_error]
        | ok w2 =>
          have hL : List.foldl
              (fun acc2 f =>
                match acc2 with
                | Except.error e => Except.error e
                | Except.ok w2 =>
                  if f = "" then Except.ok w2
                  else unpack_resource pkg sup fuel w2 (rpath ++ [f]) (rname ++ [f]) false)
              (Except.ok w2) ("" :: l) =
              List.foldl
              (fun acc2 f =>
                match acc2 with
                | Except.error e => Except.error e
                | Except.ok w2 =>
                  if f = "" then Except.ok w2
                  else unpack_resource pkg sup fuel w2 (rpath ++ [f]) (rname ++ [f]) false)
              (Except.ok w2) l := by
            rw [List.foldl_cons]
            rfl
          rw [hL]
          exact ihl (Except.ok w2)
      · have hfc : List.filter (fun g => !(g == "")) (f :: l) =
            f :: List.filter (fun g => !(g == "")) l := by
          simp [List.filter_cons, hf]
        rw [hfc]
        cases acc with
        | error e =>
          rw [foldl_step_error, foldl_step_error]
        | ok w2 =>
          rw [List.foldl_cons, List.foldl_cons]
          have hstepL : (match (Except.ok w2 : Except String World) with
              | Except.error e => Except.error e
              | Except.ok w3 =>
                if f = "" then Except.ok w3
                else unpack_resource pkg sup fuel w3 (rpath ++ [f]) (rname ++ [f]) false) =
              unpack_resource pkg sup fuel w2 (rpath ++ [f]) (rname ++ [f]) false := by
            simp [hf]
          rw [hstepL]
          exact ihl _
  constructor
  · rw [hunfold]
    exact hfilter (cs.map Prod.fst) _
  · intro w' hok
    rw [hunfold, hfilter] at hok
    have haux : ∀ (l : List String), (∀ g ∈ l, g ≠ "") → ∀ (wa wb : World),
        l.foldl
          (fun acc f =>
            match acc with
            | Except.error e => Except.error e
            | Except.ok w2 =>
              unpack_resource pkg sup fuel w2 (rpath ++ [f]) (rname ++ [f]) false)
          (Except.ok wa) = Except.ok wb →
        wb.fs (rpath ++ [""]) = wa.fs (rpath ++ [""]) := by
      intro l
      induction l with
      | nil =>
        intro _ wa wb hfold
        simp [List.foldl] at hfold
        subst hfold
        rfl
      | cons f l ihl =>
        intro hall wa wb hfold
        have hfold2 : List.foldl
            (fun acc g =>
              match acc with
              | Except.error e => Except.error e
              | Except.ok w2 =>
                unpack_resource pkg sup fuel w2 (rpath ++ [g]) (rname ++ [g]) false)
            (unpack_resource pkg sup fuel wa (rpath ++ [f]) (rname ++ [f]) false) l =
            Except.ok wb := hfold
        cases hstep : unpack_resource pkg sup fuel wa (rpath ++ [f]) (rname ++ [f]) false with
        | error e =>
          rw [hstep, foldl_step_error] at hfold2
          cases hfold2
        | ok wc =>
          rw [hstep] at hfold2
          have hf : f ≠ "" := hall f (by simp)
          have hinc := starts_snoc_incomparable rpath "" f (rpath ++ [""]) hf
            (pathStarts_refl (rpath ++ [""]))
          have hm := unpack_master pkg sup fuel (rpath ++ [f]) (rname ++ [f]) false wa wc
            (rpath ++ [""]) hstep hinc.1
          rw [ihl (fun g hg => hall g (by simp [hg])) wc wb hfold2, hm.2 hinc.2]
    have hc := haux ((cs.map Prod.fst).filter (fun f => !(f == "")))
      (by
        intro g hg
        have hmem := List.of_mem_filter hg
        simpa using hmem)
      { w with fs := create_dir w.fs rpath } w' hok
    rw [hc]
    show create_dir w.fs rpath (rpath ++ [""]) = w.fs (rpath ++ [""])
    apply create_dir_untouched
    exact pathStarts_false_of_longer rpath (rpath ++ [""]) (by simp)

/-- Witness for C10: the empty-named child of `pkg10` leaves the
filesystem untouched at its path. -/
theorem c10_empty_child_skipped_witness :
    c10res.fs ["t", ""] = w0.fs ["t", ""] := by
  have h := c10_empty_child_skipped pkg10 true 1 w0 ["t"] ["m"] false
    [("", PkgTree.file [3]), ("ok", PkgTree.file [4])] rfl
  exact h.2 c10res rfl

/-- Claim C3: locating the cache directory is idempotent within a
session: after any successful `_get_resource_subdir` call, a second (and
any later) call returns the very same path with the session and world
unchanged — in particular the lock-acquisition-attempt trace does not
grow, so no second lock is attempted. -/
theorem c3_locate_idempotent (env : LockEnv) (sig : String) (rdir : FsPath)
    (s s' : Session) (w w' : World) (d : FsPath)
    (h : get_resource_subdir env sig rdir s w = Except.ok (s', w', d)) :
    get_resource_subdir env sig rdir s' w' = Except.ok (s', w', d) := by
  have hs : s'.resource_subdir = some d := by
    unfold get_resource_subdir at h
    cases hsub : s.resource_subdir with
    | some d0 =>
      rw [hsub] at h
      simp at h
      obtain ⟨rfl, rfl, rfl⟩ := h
      exact hsub
    | none =>
      rw [hsub] at h
      simp only [try_subdir, mkdtemp] at h
      by_cases hA : env.acquireShared ((rdir ++ [sig]) ++ [BUCK_LOCK_FILE_NAME])
      · simp only [hA, if_true] at h
        simp at h
        obtain ⟨rfl, rfl, rfl⟩ := h
        rfl
      · simp only [hA, if_false] at h
        by_cases hB : env.acquireShared ((rdir ++ [sig ++ env.tmpSuffix]) ++ [BUCK_LOCK_FILE_NAME])
        · simp only [hB, if_true] at h
          simp at h
          obtain ⟨rfl, rfl, rfl⟩ := h
          rfl
        · simp only [hB, if_false] at h
          simp at h
  unfold get_resource_subdir
  rw [hs]

/-- Witness for C3: a first call under `env3` succeeds, and the second
call returns exactly the same triple. -/
theorem c3_locate_idempotent_witness :
    get_resource_subdir env3 "v1" ["root"] c3sess c3world =
      Except.ok (c3sess, c3world, ["root", "v1"]) :=
  c3_locate_idempotent env3 "v1" ["root"] ⟨none, none⟩ c3sess w0 c3world ["root", "v1"] rfl

/-- Claim C4: when the target path already exists in the cache directory,
`_get_resource` returns that path without invoking the package read API
(the `reads` trace is unchanged, so no `resource_string`/`readBytes`
call) and without modifying the existing entry's content or
permissions. -/
theorem c4_ensure_skips_existing (env : LockEnv) (pkg : PkgTree) (sup : Bool)
    (fuel : Nat) (sig : String) (rdir : FsPath) (s : Session) (w : World)
    (r : Resource) (subdir : FsPath)
    (hs : s.resource_subdir = some subdir)
    (hex : (w.fs (subdir ++ [r.basename])).isSome = true) :
    (get_resource env pkg sup fuel sig rdir s w r).map
        (fun x => (x.1, x.2.1.reads, x.2.1.fs (subdir ++ [r.basename]), x.2.2)) =
      Except.ok (s, w.reads, w.fs (subdir ++ [r.basename]), subdir ++ [r.basename]) := by
  unfold get_resource
  have hsub : get_resource_subdir env sig rdir s w = Except.ok (s, w, subdir) := by
    simp [get_resource_subdir, hs]
  rw [hsub]
  by_cases hd : (w.fs ((subdir ++ [r.basename]).dropLast)).isSome = true
  · simp only [hd, if_true, hex, Except.map]
  · simp only [hd, if_false]
    have hfs : create_dir w.fs subdir (subdir ++ [r.basename]) =
        w.fs (subdir ++ [r.basename]) := by
      apply create_dir_untouched
      exact pathStarts_false_of_longer subdir (subdir ++ [r.basename]) (by simp)
    simp [hfs, hex, Except.map]

/-- Witness for C4: the concrete resource `res.jar` is already present. -/
theorem c4_ensure_skips_existing_witness :
    (get_resource env3 pkg1 true 5 "v1" ["root"] s4 w4 r4).map
        (fun x => (x.1, x.2.1.reads, x.2.1.fs (["root", "v1"] ++ [r4.basename]), x.2.2)) =
      Except.ok (s4, w4.reads, w4.fs (["root", "v1"] ++ [r4.basename]),
        ["root", "v1"] ++ [r4.basename]) :=
  c4_ensure_skips_existing env3 pkg1 true 5 "v1" ["root"] s4 w4 r4 ["root", "v1"] rfl rfl

theorem string_append_right_empty (a b : String) (h : a ++ b = a) : b = "" := by
  have hl := congrArg String.length h
  rw [String.length_append] at hl
  have hb : b.length = 0 := by omega
  cases b with
  | mk data =>
    cases data with
    | nil => rfl
    | cons c cs => simp [String.length] at hb

theorem list_snoc_inj {α : Type} (l : List α) (x y : α) (h : l ++ [x] = l ++ [y]) :
    x = y := by
  induction l with
  | nil => simpa using h
  | cons a l ih =>
    simp only [List.cons_append, List.cons.injEq] at h
    exact ih h.2

/-- Claim C5: when the canonical directory's lock is unavailable,
`_get_resource_subdir` creates a private directory under the resource
root whose name is the signature followed by the `mkdtemp` suffix — a
path distinct from the canonical one — and acquires a lock inside it; if
that second acquisition also fails, it raises the fatal "Could not
acquire lock in fresh tmp dir" error instead of retrying. -/
theorem c5_fallback (env : LockEnv) (sig : String) (rdir : FsPath)
    (s : Session) (w : World)
    (h1 : s.resource_subdir = none)
    (h2 : env.acquireShared ((rdir ++ [sig]) ++ [BUCK_LOCK_FILE_NAME]) = false)
    (h3 : env.tmpSuffix ≠ "") :
    rdir ++ [sig ++ env.tmpSuffix] ≠ rdir ++ [sig] ∧
    (env.acquireShared ((rdir ++ [sig ++ env.tmpSuffix]) ++ [BUCK_LOCK_FILE_NAME]) = true →
      (get_resource_subdir env sig rdir s w).map
          (fun x => (x.1, x.2.1.fs (rdir ++ [sig ++ env.tmpSuffix]), x.2.2)) =
        Except.ok
          (⟨some (rdir ++ [sig ++ env.tmpSuffix]),
              some ((rdir ++ [sig ++ env.tmpSuffix]) ++ [BUCK_LOCK_FILE_NAME])⟩,
            some FSEntry.dir,
            rdir ++ [sig ++ env.tmpSuffix])) ∧
    (env.acquireShared ((rdir ++ [sig ++ env.tmpSuffix]) ++ [BUCK_LOCK_FILE_NAME]) = false →
      get_resource_subdir env sig rdir s w =
        Except.error ("Could not acquire lock in fresh tmp dir: " ++
          path_to_string (rdir ++ [sig ++ env.tmpSuffix]))) := by
  refine ⟨?_, ?_, ?_⟩
  · intro heq
    exact h3 (string_append_right_empty sig env.tmpSuffix
      (list_snoc_inj rdir (sig ++ env.tmpSuffix) sig heq))
  · intro hB
    have hdirfs : ∀ (fsx : FS) (lockp : FsPath), lockp ≠ rdir ++ [sig ++ env.tmpSuffix] →
        (open_append (create_dir (FS.set fsx (rdir ++ [sig ++ env.tmpSuffix]) FSEntry.dir)
            (rdir ++ [sig ++ env.tmpSuffix])) lockp)
          (rdir ++ [sig ++ env.tmpSuffix]) = some FSEntry.dir := by
      intro fsx lockp hne
      have hset : FS.set fsx (rdir ++ [sig ++ env.tmpSuffix]) FSEntry.dir
          (rdir ++ [sig ++ env.tmpSuffix]) = some FSEntry.dir := FS.set_same _ _ _
      have hcd : create_dir (FS.set fsx (rdir ++ [sig ++ env.tmpSuffix]) FSEntry.dir)
          (rdir ++ [sig ++ env.tmpSuffix]) (rdir ++ [sig ++ env.tmpSuffix]) =
          some FSEntry.dir := create_dir_preserves _ _ _ _ hset
      unfold open_append
      split
      · exact hcd
      · rw [FS.set_other]
        · exact hcd
        · intro hcontra
          exact hne hcontra.symm
    simp only [get_resource_subdir, h1, try_subdir, mkdtemp, h2, hB]
    simp [Except.map]
    apply hdirfs
    intro hcontra
    have hlen := congrArg List.length hcontra
    simp at hlen
  · intro hB
    simp only [get_resource_subdir, h1, try_subdir, mkdtemp, h2, hB]
    simp

/-- Witness for C5: under `env5` the canonical lock is pre-held, the
fallback directory is distinct from the canonical one, and its lock
succeeds. -/
theorem c5_fallback_witness :
    (["root"] ++ ["v1" ++ env5.tmpSuffix] ≠ ["root"] ++ ["v1"]) ∧
    (get_resource_subdir env5 "v1" ["root"] ⟨none, none⟩ w0).map
        (fun x => (x.1, x.2.1.fs (["root"] ++ ["v1" ++ env5.tmpSuffix]), x.2.2)) =
      Except.ok
        (⟨some (["root"] ++ ["v1" ++ env5.tmpSuffix]),
            some ((["root"] ++ ["v1" ++ env5.tmpSuffix]) ++ [BUCK_LOCK_FILE_NAME])⟩,
          some FSEntry.dir,
          ["root"] ++ ["v1" ++ env5.tmpSuffix]) := by
  have h := c5_fallback env5 "v1" ["root"] ⟨none, none⟩ w0 rfl rfl (by decide)
  exact ⟨h.1, h.2.1 rfl⟩

/-- Claim C2 counterexample: `_unpack_resource` on a directory resource
does NOT skip a child whose resolved path already exists — the existing
child `dst/x` (bytes `[9]`, mode octal 700) is re-extracted: the package
is read (`reads` trace grows) and the file is overwritten with the
package bytes `[1]` and mode octal 600. -/
theorem c2_deep_overwrite_counterexample :
    (unpack_resource pkg2 true 2 w2fix ["dst"] ["m"] false).map
        (fun w => (w.fs ["dst", "x"], w.reads)) =
      Except.ok (some (FSEntry.file [1] 384), [["m", "x"]]) ∧
    w2fix.fs ["dst", "x"] = some (FSEntry.file [9] 448) := by
  constructor
  · rfl
  · rfl

/-- Claim C2 amended: directory materialization creates the target as a
directory (idempotently) and recursively materializes each child, but the
skip-if-exists rule applies only to the top-level children of
`_unpack_dir`: a top-level child whose path already exists is left
entirely unchanged (its whole subtree), while `_unpack_resource` itself
re-extracts children unconditionally at every depth (see the
counterexample). -/
theorem c2_skip_top_level_only (pkg : PkgTree) (sup : Bool) (fuel : Nat)
    (w w' : World) (rdir dst : FsPath) (c : String) (e : FSEntry)
    (hok : unpack_dir pkg sup fuel w rdir dst = Except.ok w')
    (hex : w.fs (dst ++ [c]) = some e) :
    (∀ q, pathStarts q (dst ++ [c]) = true → w'.fs q = w.fs q) ∧
    (w.fs dst = some FSEntry.dir → w'.fs dst = some FSEntry.dir) := by
  unfold unpack_dir at hok
  by_cases hA : resource_exists pkg rdir = false
  · simp [hA] at hok
  · by_cases hB : resource_isdir pkg rdir = false
    · simp [hA, hB] at hok
    · simp only [hA, hB, if_false] at hok
      by_cases hC : ((create_dir w.fs dst) dst).isSome = false
      · simp [hC] at hok
      · simp only [hC, if_false] at hok
        have key : ∀ (l : List String) (wa wb : World),
            l.foldl
              (fun acc f =>
                match acc with
                | Except.error e2 => Except.error e2
                | Except.ok w2 =>
                  if (w2.fs (dst ++ [f])).isSome then Except.ok w2
                  else unpack_resource pkg sup fuel w2 (dst ++ [f]) (rdir ++ [f]) false)
              (Except.ok wa) = Except.ok wb →
            wa.fs (dst ++ [c]) = some e →
            ((∀ q, pathStarts q (dst ++ [c]) = true → wb.fs q = wa.fs q) ∧
              (wa.fs dst = some FSEntry.dir → wb.fs dst = some FSEntry.dir)) := by
          intro l
          induction l with
          | nil =>
            intro wa wb h _
            simp [List.foldl] at h
            subst h
            exact ⟨fun _ _ => rfl, fun hd => hd⟩
          | cons f l ihl =>
            intro wa wb h hexa
            have h2 : List.foldl
                (fun acc g =>
                  match acc with
                  | Except.error e2 => Except.error e2
                  | Except.ok w2 =>
                    if (w2.fs (dst ++ [g])).isSome then Except.ok w2
                    else unpack_resource pkg sup fuel w2 (dst ++ [g]) (rdir ++ [g]) false)
                (if (wa.fs (dst ++ [f])).isSome then Except.ok wa
                  else unpack_resource pkg sup fuel wa (dst ++ [f]) (rdir ++ [f]) false)
                l = Except.ok wb := h
            by_cases hfex : (wa.fs (dst ++ [f])).isSome = true
            · rw [hfex] at h2
              simp only [if_true] at h2
              exact ihl wa wb h2 hexa
            · have hfexf : (wa.fs (dst ++ [f])).isSome = false := by
                cases hv : (wa.fs (dst ++ [f])).isSome
                · rfl
                · exact absurd hv hfex
              rw [hfexf] at h2
              simp only [Bool.false_eq_true, if_false] at h2
              have hfc : f ≠ c := by
                intro hfc
                subst hfc
                rw [hexa] at hfexf
                simp at hfexf
              cases hstep : unpack_resource pkg sup fuel wa (dst ++ [f]) (rdir ++ [f]) false with
              | error e2 =>
                rw [hstep, foldl_step_error] at h2
                cases h2
              | ok wc =>
                rw [hstep] at h2
                have hq' : ∀ q, pathStarts q (dst ++ [c]) = true → wc.fs q = wa.fs q := by
                  intro q hq
                  have hinc := starts_snoc_incomparable dst c f q hfc hq
                  exact (unpack_master pkg sup fuel (dst ++ [f]) (rdir ++ [f]) false wa wc q
                    hstep hinc.1).2 hinc.2
                have hexc : wc.fs (dst ++ [c]) = some e := by
                  rw [hq' (dst ++ [c]) (pathStarts_refl _)]
                  exact hexa
                have hdirp : wa.fs dst = some FSEntry.dir → wc.fs dst = some FSEntry.dir := by
                  intro hd
                  have hlen : pathStarts dst (dst ++ [f]) = false :=
                    pathStarts_false_of_longer dst (dst ++ [f]) (by simp)
                  exact (unpack_master pkg sup fuel (dst ++ [f]) (rdir ++ [f]) false wa wc dst
                    hstep hlen).1 FSEntry.dir hd
                have hrest := ihl wc wb h2 hexc
                exact ⟨fun q hq => by rw [hrest.1 q hq, hq' q hq],
                  fun hd => hrest.2 (hdirp hd)⟩
        have hw1ex : (create_dir w.fs dst) (dst ++ [c]) = some e :=
          create_dir_preserves w.fs dst (dst ++ [c]) e hex
        have hkey := key (resource_listdir pkg rdir)
          { w with fs := create_dir w.fs dst } w' hok hw1ex
        constructor
        · intro q hq
          rw [hkey.1 q hq]
          show create_dir w.fs dst q = w.fs q
          apply create_dir_untouched
          apply pathStarts_false_of_longer
          have hlen := pathStarts_length (dst ++ [c]) q hq
          simp at hlen
          omega
        · intro hd
          exact hkey.2 (create_dir_preserves w.fs dst dst FSEntry.dir hd)

/-- Witness for the amended C2: the existing top-level child `out/a` is
left unchanged by `_unpack_dir`, and the destination stays a directory. -/
theorem c2_skip_top_level_only_witness :
    c2w_result.fs ["out", "a"] = wW.fs ["out", "a"] ∧
    c2w_result.fs ["out"] = some FSEntry.dir := by
  have h := c2_skip_top_level_only pkg2w true 3 wW c2w_result ["mods"] ["out"] "a"
    (FSEntry.file [7] 420) rfl rfl
  exact ⟨h.1 ["out", "a"] rfl, h.2 rfl⟩
